import Mathlib

/-!
Verification of the go-sunrpc record-marking layer (RFC 5531 §11).

The embedding models a byte stream as a `List Nat` of bytes (each byte is
taken modulo 256 where it is interpreted).  The Go functions of the record
marking codec and the record reassembly loop are translated one-to-one:

* `newRecordMarker`    — Go `NewRecordMarker(size uint32, last bool) uint32`
* `parseRecordMarker`  — Go `ParseRecordMarker(marker uint32) (uint32, bool)`
* `readRecordMarker`   — Go `ReadRecordMarker(r io.Reader)`; reading four
  big-endian bytes; on a short stream `binary.Read` consumes what is there
  and fails, and the function returns `(0, true, err)`
* `writeRecordMarker`  — Go `WriteRecordMarker(w, size, last)`
* `readRecordAux`      — the `for` loop of Go `ReadRecord`, with the
  accumulation buffer `buf` as explicit state; the call to
  `ReadRecordMarker` is inlined as the four-byte pattern match
* `readRecord`         — Go `ReadRecord(r io.Reader)`; returns the record
  (or the error) together with the part of the stream that was not consumed
* `writeTCPReplyMessage` — Go `WriteTCPReplyMessage(w, reply)`

Machine integers are `Nat` with explicit `% 2^32` at the points where the
Go code's `uint32` typing truncates.
-/

namespace SunRpc

/-- Go constant `maxRecordSize = 32 * 1024`. -/
def maxRecordSize : Nat := 32 * 1024

/-- Go `NewRecordMarker`: `marker := size; marker &^= 1 << 31;
if last { marker ^= 0x80000000 }`.  On `uint32`, `&^ (1 << 31)` is a
bitwise AND with `0x7FFFFFFF`.  The `% 2^32` models the `uint32` type of
the `size` parameter. -/
def newRecordMarker (size : Nat) (last : Bool) : Nat :=
  let marker := (size % 2 ^ 32) &&& 0x7FFFFFFF
  if last then marker ^^^ 0x80000000 else marker

/-- Go `ParseRecordMarker`: `size = marker &^ (1 << 31);
last = (marker >> 31) == 1`.  The `% 2^32` models the `uint32` type of the
`marker` parameter. -/
def parseRecordMarker (marker : Nat) : Nat × Bool :=
  ((marker % 2 ^ 32) &&& 0x7FFFFFFF, (marker % 2 ^ 32) >>> 31 == 1)

/-- Big-endian recomposition of four stream bytes into a `uint32`, as
`binary.Read(r, binary.BigEndian, &marker)` does; each byte of the stream
is interpreted modulo 256. -/
def beU32 (b0 b1 b2 b3 : Nat) : Nat :=
  (b0 % 256) * 2 ^ 24 + (b1 % 256) * 2 ^ 16 + (b2 % 256) * 2 ^ 8 + b3 % 256

/-- Big-endian decomposition of a `uint32` into four bytes, as
`binary.Write(w, binary.BigEndian, record)` does. -/
def u32be (m : Nat) : List Nat :=
  [m / 2 ^ 24 % 256, m / 2 ^ 16 % 256, m / 2 ^ 8 % 256, m % 256]

/-- Result of Go `ReadRecordMarker`: the `(size, last, err)` triple it
returns, together with the rest of the stream.  `err` is `true` when
`binary.Read` failed (fewer than four bytes were available; `io.ReadFull`
consumes what is there). -/
structure MarkerRead where
  size : Nat
  last : Bool
  err : Bool
  rest : List Nat
  deriving DecidableEq, Repr

/-- Go `ReadRecordMarker`: reads four big-endian bytes and decodes them via
`ParseRecordMarker`; on failure it returns `0, true, err`. -/
def readRecordMarker (s : List Nat) : MarkerRead :=
  match s with
  | b0 :: b1 :: b2 :: b3 :: rest =>
    ⟨(parseRecordMarker (beU32 b0 b1 b2 b3)).1,
     (parseRecordMarker (beU32 b0 b1 b2 b3)).2, false, rest⟩
  | _ => ⟨0, true, true, []⟩

/-- Go `WriteRecordMarker`: encodes via `NewRecordMarker` and writes four
big-endian bytes. -/
def writeRecordMarker (size : Nat) (last : Bool) : List Nat :=
  u32be (newRecordMarker size last)

/-- The errors Go `ReadRecord` can return: the error propagated from
`binary.Read` in `ReadRecordMarker`; "A TCP record must be at least one
byte in size"; "Discarded record exceeding maximum size of %v bytes"; and
"Unable to read entire record. Read %v, expected %v". -/
inductive RecErr where
  | markerRead : RecErr
  | zeroSize : RecErr
  | oversize (max : Nat) : RecErr
  | shortRead (got expected : Nat) : RecErr
  deriving DecidableEq, Repr

/-- The `for` loop of Go `ReadRecord`, with the accumulation buffer `buf`
as explicit state.  Each iteration reads a marker (four bytes, big-endian,
inlined from `ReadRecordMarker`), rejects `size < 1`, drains and rejects
`size >= maxRecordSize`, copies `size` bytes into the buffer (an
`io.CopyN` that runs short reports the count it did copy), and stops when
the `last` flag is set.  The second component is the part of the stream
left unconsumed. -/
def readRecordAux (s : List Nat) (buf : List Nat) :
    Except RecErr (List Nat) × List Nat :=
  match s with
  | b0 :: b1 :: b2 :: b3 :: rest =>
    let size := (parseRecordMarker (beU32 b0 b1 b2 b3)).1
    let last := (parseRecordMarker (beU32 b0 b1 b2 b3)).2
    if size < 1 then
      (Except.error RecErr.zeroSize, rest)
    else if maxRecordSize ≤ size then
      (Except.error (RecErr.oversize maxRecordSize), rest.drop size)
    else if rest.length < size then
      (Except.error (RecErr.shortRead rest.length size), [])
    else if last then
      (Except.ok (buf ++ rest.take size), rest.drop size)
    else
      readRecordAux (rest.drop size) (buf ++ rest.take size)
  | _ => (Except.error RecErr.markerRead, [])
termination_by s.length
decreasing_by
  simp only [List.length_drop, List.length_cons]
  omega

/-- Go `ReadRecord`: runs the reassembly loop on an empty buffer. -/
def readRecord (s : List Nat) : Except RecErr (List Nat) × List Nat :=
  readRecordAux s []

/-- Go `WriteTCPReplyMessage`: writes the record marker
`NewRecordMarker(uint32(len(reply)), true)` followed by the payload. -/
def writeTCPReplyMessage (reply : List Nat) : List Nat :=
  writeRecordMarker (reply.length % 2 ^ 32) true ++ reply

/-- One fragment on the wire: the marker for the payload's length followed
by the payload bytes. -/
def encodeFragment (p : List Nat) (last : Bool) : List Nat :=
  u32be (newRecordMarker p.length last) ++ p

/-- A sequence of fragments on the wire: every fragment but the final one
carries `last = false`, the final one carries `last = true`. -/
def encodeFragments : List (List Nat) → List Nat
  | [] => []
  | [p] => encodeFragment p true
  | p :: rest => encodeFragment p false ++ encodeFragments rest

/-! ### Arithmetic helper lemmas -/

/-- Masking with `0x7FFFFFFF` is reduction modulo `2^31`. -/
lemma and_mask31 (x : Nat) : x &&& 0x7FFFFFFF = x % 2 ^ 31 := by
  have h2 : (0x7FFFFFFF : Nat) = 2 ^ 31 - 1 := by norm_num
  rw [h2, Nat.and_pow_two_sub_one_eq_mod]

/-- Toggling a power-of-two bit that is clear is addition. -/
lemma xor_two_pow_of_lt {m n : Nat} (h : m < 2 ^ n) :
    m ^^^ 2 ^ n = m + 2 ^ n := by
  apply Nat.eq_of_testBit_eq
  intro i
  rcases lt_trichotomy i n with hi | hi | hi
  · rw [Nat.testBit_xor, Nat.testBit_two_pow, Nat.add_comm m,
      Nat.testBit_two_pow_add_gt hi]
    have hne : ¬(n = i) := by omega
    simp [hne]
  · subst hi
    rw [Nat.testBit_xor, Nat.testBit_two_pow, Nat.add_comm m,
      Nat.testBit_two_pow_add_eq]
    simp [Nat.testBit_eq_false_of_lt h]
  · have hm1 : m < 2 ^ (n + 1) :=
      lt_of_lt_of_le h (Nat.pow_le_pow_right (by norm_num) (Nat.le_succ n))
    have hp1 : (2 : Nat) ^ n < 2 ^ (n + 1) := by
      rw [Nat.pow_succ]; omega
    have hn1 : (2 : Nat) ^ (n + 1) ≤ 2 ^ i :=
      Nat.pow_le_pow_right (by norm_num) hi
    have h1 : m ^^^ 2 ^ n < 2 ^ i :=
      lt_of_lt_of_le (Nat.xor_lt_two_pow hm1 hp1) hn1
    have h2 : m + 2 ^ n < 2 ^ i := by
      have := Nat.pow_succ 2 n
      omega
    rw [Nat.testBit_eq_false_of_lt h1, Nat.testBit_eq_false_of_lt h2]

/-- `newRecordMarker` in plain arithmetic: the low 31 bits hold the size
modulo `2^31`, the top bit holds the flag. -/
lemma newRecordMarker_arith (size : Nat) (last : Bool) :
    newRecordMarker size last =
      size % 2 ^ 31 + (if last then 2 ^ 31 else 0) := by
  unfold newRecordMarker
  have h1 : size % 2 ^ 32 &&& 0x7FFFFFFF = size % 2 ^ 31 := by
    rw [and_mask31, Nat.mod_mod_of_dvd _ (Nat.pow_dvd_pow 2 (by norm_num))]
  have hlt : size % 2 ^ 31 < 2 ^ 31 := Nat.mod_lt _ (by norm_num)
  cases last with
  | false => simpa using h1
  | true =>
    have h3 : (0x80000000 : Nat) = 2 ^ 31 := by norm_num
    simp only [if_pos, h1, h3]
    rw [xor_two_pow_of_lt hlt]

/-- `newRecordMarker` always fits in 32 bits. -/
lemma newRecordMarker_lt (size : Nat) (last : Bool) :
    newRecordMarker size last < 2 ^ 32 := by
  rw [newRecordMarker_arith]
  have hlt : size % 2 ^ 31 < 2 ^ 31 := Nat.mod_lt _ (by norm_num)
  cases last <;> simp <;> omega

/-- `parseRecordMarker` in plain arithmetic. -/
lemma parseRecordMarker_arith (m : Nat) :
    parseRecordMarker m = (m % 2 ^ 31, m % 2 ^ 32 / 2 ^ 31 == 1) := by
  unfold parseRecordMarker
  rw [and_mask31, Nat.mod_mod_of_dvd _ (Nat.pow_dvd_pow 2 (by norm_num)),
    Nat.shiftRight_eq_div_pow]

/-- Decoding an encoded marker recovers size and flag (sizes below
`2^31`). -/
lemma parse_new (size : Nat) (last : Bool) (h : size < 2 ^ 31) :
    parseRecordMarker (newRecordMarker size last) = (size, last) := by
  rw [newRecordMarker_arith, parseRecordMarker_arith]
  have hs : size % 2 ^ 31 = size := Nat.mod_eq_of_lt h
  cases last with
  | false =>
    simp only [if_neg, Bool.false_eq_true, if_false, Nat.add_zero, hs]
    have h1 : size % 2 ^ 32 = size :=
      Nat.mod_eq_of_lt (lt_trans h (by norm_num))
    have h2 : size / 2 ^ 31 = 0 := Nat.div_eq_of_lt h
    rw [h1, h2]
    simp
  | true =>
    simp only [if_pos, hs]
    have h1 : (size + 2 ^ 31) % 2 ^ 32 = size + 2 ^ 31 := by
      have : size + 2 ^ 31 < 2 ^ 32 := by norm_num; omega
      exact Nat.mod_eq_of_lt this
    have h2 : (size + 2 ^ 31) % 2 ^ 31 = size := by
      rw [Nat.add_mod_right, hs]
    have h3 : (size + 2 ^ 31) / 2 ^ 31 = 1 := by
      rw [Nat.add_div_right _ (by norm_num), Nat.div_eq_of_lt h]
    rw [h1, h2, h3]
    simp

/-- Recomposing the four big-endian bytes of a 32-bit value gives the
value back. -/
lemma beU32_u32be (m : Nat) (h : m < 2 ^ 32) :
    beU32 (m / 2 ^ 24 % 256) (m / 2 ^ 16 % 256) (m / 2 ^ 8 % 256)
      (m % 256) = m := by
  unfold beU32
  omega

/-- One iteration of the reassembly loop on a stream whose head is the
marker `newRecordMarker size last`: the loop body with `size` and `last`
substituted. -/
lemma readRecordAux_marker (size : Nat) (last : Bool) (rest buf : List Nat)
    (h : size < 2 ^ 31) :
    readRecordAux (u32be (newRecordMarker size last) ++ rest) buf =
      if size < 1 then (Except.error RecErr.zeroSize, rest)
      else if maxRecordSize ≤ size then
        (Except.error (RecErr.oversize maxRecordSize), rest.drop size)
      else if rest.length < size then
        (Except.error (RecErr.shortRead rest.length size), [])
      else if last then (Except.ok (buf ++ rest.take size), rest.drop size)
      else readRecordAux (rest.drop size) (buf ++ rest.take size) := by
  have hm : newRecordMarker size last < 2 ^ 32 := newRecordMarker_lt size last
  simp only [u32be, List.cons_append, List.nil_append]
  set_option maxRecDepth 4096 in rw [readRecordAux]
  rw [beU32_u32be _ hm, parse_new _ _ h]

/-- `newRecordMarker` ignores the `% 2^32` truncation of an argument that
is reduced again inside. -/
lemma newRecordMarker_mod (size : Nat) (last : Bool) :
    newRecordMarker (size % 2 ^ 32) last = newRecordMarker size last := by
  unfold newRecordMarker
  rw [Nat.mod_mod_of_dvd _ dvd_rfl]

/-! ### Claim theorems -/

/-- C6: for every `length` in `[0, 2^31 - 1]` and every `isLast`,
`ParseRecordMarker (NewRecordMarker length isLast)` returns exactly
`(length, isLast)`. -/
theorem decode_encode_roundtrip (length : Nat) (last : Bool)
    (h : length < 2 ^ 31) :
    parseRecordMarker (newRecordMarker length last) = (length, last) :=
  parse_new length last h

/-- Witness for C6 at `length = 5`, `isLast = true`. -/
theorem decode_encode_roundtrip_witness :
    parseRecordMarker (newRecordMarker 5 true) = (5, true) :=
  decode_encode_roundtrip 5 true (by norm_num)

/-- C9: for every 32-bit marker value `m`, decoding `m` into
`(length, isLast)` and re-encoding that pair reconstructs `m` exactly. -/
theorem encode_decode_roundtrip (m : Nat) (h : m < 2 ^ 32) :
    newRecordMarker (parseRecordMarker m).1 (parseRecordMarker m).2 = m := by
  rw [parseRecordMarker_arith, newRecordMarker_arith,
    Nat.mod_eq_of_lt h, Nat.mod_mod_of_dvd _ dvd_rfl]
  by_cases hc : m < 2 ^ 31
  · have hd : m / 2 ^ 31 = 0 := Nat.div_eq_of_lt hc
    have hm : m % 2 ^ 31 = m := Nat.mod_eq_of_lt hc
    rw [hd, hm]
    simp
  · have hd : m / 2 ^ 31 = 1 := by omega
    rw [hd]
    simp
    omega

/-- Witness for C9 at `m = 0x80000005`. -/
theorem encode_decode_roundtrip_witness :
    newRecordMarker (parseRecordMarker 0x80000005).1
      (parseRecordMarker 0x80000005).2 = 0x80000005 :=
  encode_decode_roundtrip 0x80000005 (by norm_num)

/-- C4: for every length value (all of `uint32`, including values at or
above `2^31`) and every flag, the top bit of the encoded marker equals the
flag — the length never reaches the flag bit — and decoding reports the
flag unchanged. -/
theorem encode_flag_bit (length : Nat) (last : Bool) :
    newRecordMarker length last >>> 31 = (if last then 1 else 0) ∧
    (parseRecordMarker (newRecordMarker length last)).2 = last := by
  have hlt : length % 2 ^ 31 < 2 ^ 31 := Nat.mod_lt _ (by norm_num)
  constructor
  · rw [newRecordMarker_arith, Nat.shiftRight_eq_div_pow]
    cases last with
    | false => simp
    | true => simp
  · rw [newRecordMarker_arith, parseRecordMarker_arith]
    cases last <;> simp [beq_iff_eq] <;> omega

/-- C5: whenever `ReadRecordMarker` fails (fewer than four bytes are
available on the stream), it reports `size = 0`, `isLast = true` and the
error. -/
theorem readRecordMarker_short (s : List Nat) (h : s.length < 4) :
    readRecordMarker s = ⟨0, true, true, []⟩ := by
  rcases s with _ | ⟨a, _ | ⟨b, _ | ⟨c, _ | ⟨d, t⟩⟩⟩⟩
  · rfl
  · rfl
  · rfl
  · rfl
  · simp at h
    omega

/-- Witness for C5 on the two-byte stream `[1, 2]`. -/
theorem readRecordMarker_short_witness :
    readRecordMarker [1, 2] = ⟨0, true, true, []⟩ :=
  readRecordMarker_short [1, 2] (by norm_num)

/-- C7: a fragment whose decoded length is zero makes the reassembly loop
abort with the zero-length error, whatever the flag, whatever is already
accumulated, consuming nothing beyond the four marker bytes. -/
theorem readRecord_zero_length (last : Bool) (t buf : List Nat) :
    readRecord (u32be (newRecordMarker 0 last) ++ t) =
      (Except.error RecErr.zeroSize, t) ∧
    readRecordAux (u32be (newRecordMarker 0 last) ++ t) buf =
      (Except.error RecErr.zeroSize, t) := by
  constructor
  · unfold readRecord
    rw [readRecordAux_marker 0 last t [] (by norm_num)]
    simp
  · rw [readRecordAux_marker 0 last t buf (by norm_num)]
    simp

/-- C8: an accepted fragment (`1 ≤ size < maxRecordSize`) whose payload
runs short makes the reassembly loop abort with the short-read error
carrying the number of bytes actually read and the expected length; no
record is returned, whatever was already accumulated. -/
theorem readRecord_short_payload (size : Nat) (last : Bool)
    (avail buf : List Nat) (h1 : 1 ≤ size) (h2 : size < maxRecordSize)
    (h3 : avail.length < size) :
    readRecordAux (u32be (newRecordMarker size last) ++ avail) buf =
      (Except.error (RecErr.shortRead avail.length size), []) := by
  have h31 : size < 2 ^ 31 := lt_of_lt_of_le h2 (by norm_num [maxRecordSize])
  rw [readRecordAux_marker size last avail buf h31]
  rw [if_neg (by omega), if_neg (not_le.mpr h2), if_pos h3]

/-- Witness for C8: a fragment announcing three bytes over a one-byte
payload, with one byte already accumulated. -/
theorem readRecord_short_payload_witness :
    readRecordAux (u32be (newRecordMarker 3 true) ++ [7]) [9] =
      (Except.error (RecErr.shortRead 1 3), []) := by
  have h := readRecord_short_payload 3 true [7] [9] (by norm_num)
    (by norm_num [maxRecordSize]) (by norm_num)
  simpa using h

/-- C3: a fragment whose decoded length is at least `maxRecordSize` makes
the reassembly loop drain exactly that many payload bytes, abort with the
oversize error, and discard whatever was already accumulated; the stream
is left at the next marker boundary. -/
theorem readRecord_oversize (size : Nat) (last : Bool)
    (payload t buf : List Nat) (h1 : maxRecordSize ≤ size)
    (h2 : size < 2 ^ 31) (hp : payload.length = size) :
    readRecordAux (u32be (newRecordMarker size last) ++ (payload ++ t))
      buf = (Except.error (RecErr.oversize maxRecordSize), t) := by
  rw [readRecordAux_marker size last (payload ++ t) buf h2]
  have h0 : ¬size < 1 := by
    have hm : (32 * 1024 : Nat) ≤ size := h1
    omega
  rw [if_neg h0, if_pos h1, ← hp, List.drop_left]

/-- Witness for C3: a fragment announcing exactly `maxRecordSize` bytes,
all present, followed by one more byte of stream. -/
theorem readRecord_oversize_witness :
    readRecordAux
      (u32be (newRecordMarker 32768 true) ++ (List.replicate 32768 0 ++ [9]))
      [] = (Except.error (RecErr.oversize maxRecordSize), [9]) :=
  readRecord_oversize 32768 true (List.replicate 32768 0) [9] []
    (by norm_num [maxRecordSize]) (by norm_num) (List.length_replicate ..)

/-- C1 counterexample: the empty payload. `WriteTCPReplyMessage` frames it
as the marker `newRecordMarker 0 true` with no payload, and `ReadRecord`
rejects that stream with the zero-length error instead of returning the
payload unchanged. -/
theorem writeReply_empty_not_roundtrip :
    readRecord (writeTCPReplyMessage []) =
      (Except.error RecErr.zeroSize, []) ∧
    readRecord (writeTCPReplyMessage []) ≠
      (Except.ok ([] : List Nat), ([] : List Nat)) := by
  have h : writeTCPReplyMessage [] = u32be (newRecordMarker 0 true) ++ [] := by
    decide
  have hres : readRecord (writeTCPReplyMessage []) =
      (Except.error RecErr.zeroSize, []) := by
    rw [h]
    unfold readRecord
    rw [readRecordAux_marker 0 true [] [] (by norm_num)]
    simp
  exact ⟨hres, by rw [hres]; simp⟩

/-- C1 (amended): for every payload with `1 ≤ len < maxRecordSize`,
`WriteTCPReplyMessage` emits exactly the four big-endian bytes of
`newRecordMarker len true` followed by the payload verbatim, and
`ReadRecord` on that exact stream returns the payload unchanged.  (The
framing equation in the first conjunct holds for every payload; the
read-back requires the bounds, as the counterexample shows for the empty
payload.) -/
theorem writeReply_readRecord_roundtrip (reply : List Nat)
    (h1 : 1 ≤ reply.length) (h2 : reply.length < maxRecordSize) :
    writeTCPReplyMessage reply =
      u32be (newRecordMarker reply.length true) ++ reply ∧
    readRecord (writeTCPReplyMessage reply) = (Except.ok reply, []) := by
  have h31 : reply.length < 2 ^ 31 :=
    lt_of_lt_of_le h2 (by norm_num [maxRecordSize])
  have hfmt : writeTCPReplyMessage reply =
      u32be (newRecordMarker reply.length true) ++ reply := by
    unfold writeTCPReplyMessage writeRecordMarker
    rw [newRecordMarker_mod]
  refine ⟨hfmt, ?_⟩
  rw [hfmt]
  unfold readRecord
  rw [readRecordAux_marker _ _ _ _ h31]
  rw [if_neg (by omega), if_neg (not_le.mpr h2), if_neg (lt_irrefl _),
    if_pos rfl]
  simp

/-- Witness for C1 on the two-byte payload `[104, 105]`. -/
theorem writeReply_readRecord_roundtrip_witness :
    writeTCPReplyMessage [104, 105] =
      u32be (newRecordMarker 2 true) ++ [104, 105] ∧
    readRecord (writeTCPReplyMessage [104, 105]) =
      (Except.ok [104, 105], []) := by
  have h := writeReply_readRecord_roundtrip [104, 105] (by norm_num)
    (by norm_num [maxRecordSize])
  simpa using h

/-- The reassembly loop on a well-formed fragment sequence appends the
concatenated payloads to the accumulation buffer and stops right after the
final fragment. -/
lemma readRecordAux_fragments (ps : List (List Nat)) (t buf : List Nat)
    (hne : ps ≠ [])
    (hall : ∀ p ∈ ps, 1 ≤ p.length ∧ p.length < maxRecordSize) :
    readRecordAux (encodeFragments ps ++ t) buf =
      (Except.ok (buf ++ ps.flatten), t) := by
  induction ps generalizing buf with
  | nil => exact absurd rfl hne
  | cons p ps ih =>
    have hp := hall p (List.mem_cons_self p ps)
    have h31 : p.length < 2 ^ 31 :=
      lt_of_lt_of_le hp.2 (by norm_num [maxRecordSize])
    rcases ps with _ | ⟨q, ps'⟩
    · simp only [encodeFragments, encodeFragment, List.append_assoc]
      rw [readRecordAux_marker _ _ _ _ h31]
      rw [if_neg (by omega), if_neg (not_le.mpr hp.2),
        if_neg (by rw [List.length_append]; omega),
        if_pos rfl, List.take_left, List.drop_left]
      simp
    · simp only [encodeFragments, encodeFragment, List.append_assoc]
      rw [readRecordAux_marker _ _ _ _ h31]
      rw [if_neg (by omega), if_neg (not_le.mpr hp.2),
        if_neg (by rw [List.length_append]; omega), if_neg (by simp),
        List.take_left, List.drop_left]
      rw [ih (buf ++ p) (by simp)
        (fun r hr => hall r (List.mem_cons_of_mem p hr))]
      simp

/-- C2: a stream that begins with a chain of fragments — each of accepted
size, all flagged non-final except the last one, which is flagged final —
makes `ReadRecord` return the payloads concatenated in stream order,
leaving the rest of the stream unconsumed. -/
theorem readRecord_multifragment (ps : List (List Nat)) (t : List Nat)
    (hne : ps ≠ [])
    (hall : ∀ p ∈ ps, 1 ≤ p.length ∧ p.length < maxRecordSize) :
    readRecord (encodeFragments ps ++ t) = (Except.ok ps.flatten, t) := by
  unfold readRecord
  rw [readRecordAux_fragments ps t [] hne hall]
  simp

/-- Witness for C2: fragments `"abc"` (non-final) then `"de"` (final)
reassemble to `"abcde"`. -/
theorem readRecord_multifragment_witness :
    readRecord (encodeFragments [[97, 98, 99], [100, 101]] ++ []) =
      (Except.ok [97, 98, 99, 100, 101], []) := by
  have h := readRecord_multifragment [[97, 98, 99], [100, 101]] []
    (by simp) (by decide)
  simpa using h

/-- The reassembly loop only grows its accumulation buffer: a successful
run returns strictly more bytes than were already accumulated. -/
lemma readRecordAux_ok_length :
    ∀ n s buf rec rest, s.length ≤ n →
      readRecordAux s buf = (Except.ok rec, rest) →
      buf.length < rec.length := by
  intro n
  induction n with
  | zero =>
    intro s buf rec rest hlen h
    rcases s with _ | ⟨a, s'⟩
    · rw [readRecordAux] at h
      · simp at h
      · simp
    · simp at hlen
  | succ n ih =>
    intro s buf rec rest hlen h
    rcases s with _ | ⟨b0, _ | ⟨b1, _ | ⟨b2, _ | ⟨b3, rest'⟩⟩⟩⟩
    · rw [readRecordAux] at h
      · simp at h
      · simp
    · rw [readRecordAux] at h
      · simp at h
      · simp
    · rw [readRecordAux] at h
      · simp at h
      · simp
    · rw [readRecordAux] at h
      · simp at h
      · simp
    · rw [readRecordAux] at h
      by_cases h1 : (parseRecordMarker (beU32 b0 b1 b2 b3)).1 < 1
      · rw [if_pos h1] at h
        simp at h
      rw [if_neg h1] at h
      by_cases h2 : maxRecordSize ≤ (parseRecordMarker (beU32 b0 b1 b2 b3)).1
      · rw [if_pos h2] at h
        simp at h
      rw [if_neg h2] at h
      by_cases h3 : rest'.length < (parseRecordMarker (beU32 b0 b1 b2 b3)).1
      · rw [if_pos h3] at h
        simp at h
      rw [if_neg h3] at h
      by_cases h4 : (parseRecordMarker (beU32 b0 b1 b2 b3)).2 = true
      · rw [if_pos h4] at h
        have hrec : rec = buf ++ rest'.take (parseRecordMarker (beU32 b0 b1 b2 b3)).1 := by
          have := congrArg Prod.fst h
          simpa using this.symm
        rw [hrec, List.length_append, List.length_take]
        omega
      · rw [if_neg h4] at h
        have hlen' : (rest'.drop (parseRecordMarker (beU32 b0 b1 b2 b3)).1).length ≤ n := by
          rw [List.length_drop]
          simp only [List.length_cons] at hlen
          omega
        have hstep := ih _ _ _ _ hlen' h
        rw [List.length_append] at hstep
        omega

/-- C10: whenever `ReadRecord` returns without error, the returned record
holds at least one byte. -/
theorem readRecord_ok_nonempty (s rec rest : List Nat)
    (h : readRecord s = (Except.ok rec, rest)) : 1 ≤ rec.length := by
  have hlt := readRecordAux_ok_length s.length s [] rec rest le_rfl h
  simpa using hlt

/-- Witness for C10 on a one-fragment stream carrying the single byte
`104`. -/
theorem readRecord_ok_nonempty_witness : 1 ≤ ([104] : List Nat).length := by
  apply readRecord_ok_nonempty [128, 0, 0, 1, 104] [104] []
  have hs : ([128, 0, 0, 1, 104] : List Nat) =
      u32be (newRecordMarker 1 true) ++ [104] := by decide
  rw [hs]
  unfold readRecord
  rw [readRecordAux_marker 1 true [104] [] (by norm_num)]
  norm_num [maxRecordSize]

end SunRpc
